import Mathlib

/-!
Verification development for the SoundSwitch audio-routing application
(src/app.py, the port-linking drag-and-drop app, and src/testapp.py, the
stream-routing app).  The definitions below are shallow embeddings of the
reconciliation code paths: channel-suffix matching, the desired-link
computation of relink_outputs_to_syncs and link_item_to_sync_bucket, the
pw-link -l output parser, the routing-rule engine apply_routing_rules with
hidden-stream and manual-override handling, the persisted label-location
and router state stores, and the mutation executor.  External systems
(PipeWire, pactl, the json library) appear as explicit inputs: the live
port lookup is the list of present "device:port" keys, the pw-link -l
output is a list of text lines, moves act on a snapshot of streams, and
parse outcomes of the json library are an explicit ok/err value.
-/

/-! ## String helpers (ASCII models of the Python str operations used) -/

/-- Model of the Python expression
port.split(underscore)[-1] if underscore in port else port
from src/app.py lines 800, 804, 857, 860, 893, 897: the characters after
the last underscore, or the whole string when it has no underscore. -/
def channelSuffix (s : String) : String :=
  ⟨((s.data.reverse).takeWhile (fun c => c ≠ '_')).reverse⟩

/-- ASCII model of Python str.lower on a single character. -/
def asciiLowerChar (c : Char) : Char :=
  if 'A' ≤ c ∧ c ≤ 'Z' then Char.ofNat (c.toNat + 32) else c

/-- ASCII model of Python str.lower. -/
def asciiLower (s : String) : String := ⟨s.data.map asciiLowerChar⟩

/-- Model of Python str.startswith. -/
def strStarts (s pre : String) : Bool := pre.data.isPrefixOf s.data

/-- Whitespace test used by the strip models. -/
def isSpaceChar (c : Char) : Bool := c = ' ' || c = '\t' || c = '\n' || c = '\r'

/-- Model of Python str.rstrip. -/
def strTrimRight (s : String) : String := ⟨(s.data.reverse.dropWhile isSpaceChar).reverse⟩

/-- Model of Python str.lstrip. -/
def strTrimLeft (s : String) : String := ⟨s.data.dropWhile isSpaceChar⟩

/-- Model of Python str.strip. -/
def strTrim (s : String) : String := strTrimLeft (strTrimRight s)

/-- Model of Python slicing s[n:] by characters. -/
def strDrop (s : String) (n : Nat) : String := ⟨s.data.drop n⟩

/-- Model of the Python substring test (pat in s). -/
def hasSubstring (pat : List Char) : List Char → Bool
  | [] => pat.isEmpty
  | c :: cs => pat.isPrefixOf (c :: cs) || hasSubstring pat cs

/-- Association-list lookup modelling Python dict access for string keys
(first match wins; updates are modelled by shadowing inserts). -/
def lookupStr (k : String) : List (String × String) → Option String
  | [] => none
  | p :: ps => if p.1 = k then some p.2 else lookupStr k ps

/-! ## Port metadata and mutation operations -/

/-- Port metadata dictionary built by PipeWirePoller (src/app.py lines
93-101): keys id, port and type. -/
structure PortInfo where
  id : String
  port : String
  ty : String
deriving DecidableEq

/-- One mutation operation issued to the external control plane:
a pw-link connect, a pw-link -d disconnect, or a
pactl move-sink-input move. -/
inductive Op where
  | connect (src dst : String)
  | disconnect (src dst : String)
  | move (idx sinkName : String)
deriving DecidableEq

/-- True exactly on connect operations. -/
def Op.isConnect : Op → Bool
  | .connect _ _ => true
  | _ => false

/-- The device:port key used by the port lookup dictionaries
(src/app.py lines 771-774, 829-832). -/
def mkKey (device port : String) : String := device ++ ":" ++ port

/-- Monitor-side ports of a sync sink: type output and name starting with
monitor underscore (src/app.py line 791 and lines 930-934). -/
def monitorPortsOf (ps : List PortInfo) : List PortInfo :=
  ps.filter fun p => decide (p.ty = "output") && strStarts p.port "monitor_"

/-- Playback-side ports: type input and name starting with playback
underscore (src/app.py lines 797, 840, 924). -/
def playbackPortsOf (ps : List PortInfo) : List PortInfo :=
  ps.filter fun p => decide (p.ty = "input") && strStarts p.port "playback_"

/-- Output-side ports of a dropped device: type output and name starting
with output underscore (src/app.py line 846). -/
def outputPortsOf (ps : List PortInfo) : List PortInfo :=
  ps.filter fun p => decide (p.ty = "output") && strStarts p.port "output_"

/-! ## relink_outputs_to_syncs (src/app.py lines 757-814) -/

/-- Desired (monitor, playback) pairs of relink_outputs_to_syncs for one
sync bucket and one output-device label: every monitor port paired with
every playback port whose channel suffix matches (lines 799-806). -/
def relinkPairsFor (syncPorts devicePorts : List PortInfo) : List (PortInfo × PortInfo) :=
  (monitorPortsOf syncPorts).flatMap fun mon =>
    (playbackPortsOf devicePorts).filterMap fun pb =>
      if channelSuffix mon.port = channelSuffix pb.port then some (mon, pb) else none

/-- Connect operations attempted by relink_outputs_to_syncs for one sync
bucket and one output-device label: one connect per desired pair whose two
keys are both present in the live port lookup (lines 799-814). -/
def relinkOpsFor (syncName : String) (syncPorts : List PortInfo)
    (deviceName : String) (devicePorts : List PortInfo)
    (lookup : List String) : List Op :=
  (relinkPairsFor syncPorts devicePorts).filterMap fun mp =>
    let monKey := mkKey syncName mp.1.port
    let pbKey := mkKey deviceName mp.2.port
    if monKey ∈ lookup ∧ pbKey ∈ lookup then some (Op.connect monKey pbKey) else none

/-- Full relink_outputs_to_syncs pass: for every sync bucket with
non-empty sync metadata and every label in the Outputs bucket, attempt all
suffix-matched monitor-to-playback connects.  The pass reads nothing from
the current link set and emits only connects (lines 784-814). -/
def relinkOutputsToSyncs (syncBuckets outputLabels : List (String × List PortInfo))
    (lookup : List String) : List Op :=
  syncBuckets.flatMap fun b =>
    if b.2 = [] then []
    else outputLabels.flatMap fun lab => relinkOpsFor b.1 b.2 lab.1 lab.2 lookup

/-! ## pw-link -l output parsing (src/app.py lines 866-890 and 949-967) -/

/-- Line walk of the pw-link -l output: a non-indented line names the
current source port, an indented line starting with the arrow token names
a destination linked from the current source. -/
def parsePwLinksAux : Option String → List String → List (String × String)
  | _, [] => []
  | cur, l :: ls =>
    let line := strTrimRight l
    if line = "" then parsePwLinksAux cur ls
    else if strStarts line "  " then
      if strStarts (strTrim line) "|->" then
        match cur with
        | some src => (src, strTrim (strDrop (strTrim line) 3)) :: parsePwLinksAux cur ls
        | none => parsePwLinksAux cur ls
      else parsePwLinksAux cur ls
    else parsePwLinksAux (some (strTrim line)) ls

/-- Parse the pw-link -l output into (source, destination) link pairs. -/
def parsePwLinks (lines : List String) : List (String × String) :=
  parsePwLinksAux none lines

/-! ## link_item_to_sync_bucket (src/app.py lines 816-909) -/

/-- Desired (output, playback) pairs of link_item_to_sync_bucket: every
output port of the dropped device paired with every playback port of the
sync sink whose channel suffix matches (lines 855-864 and 892-899). -/
def linkPairsFor (syncPorts devicePorts : List PortInfo) : List (PortInfo × PortInfo) :=
  (outputPortsOf devicePorts).flatMap fun outp =>
    (playbackPortsOf syncPorts).filterMap fun pb =>
      if channelSuffix outp.port = channelSuffix pb.port then some (outp, pb) else none

/-- The desired_links key set of link_item_to_sync_bucket
(lines 854-864): source key device:outputPort, destination key
syncName:playbackPort. -/
def linkDesiredKeys (syncName : String) (syncPorts : List PortInfo)
    (deviceName : String) (devicePorts : List PortInfo) : List (String × String) :=
  (linkPairsFor syncPorts devicePorts).map fun pr =>
    (mkKey deviceName pr.1.port, mkKey syncName pr.2.port)

/-- Disconnect phase of link_item_to_sync_bucket (lines 866-890): walk
the parsed pw-link -l output and disconnect every link that leaves one of
the output ports of the dropped device and is not in the desired set. -/
def linkDisconnectOps (syncName : String) (syncPorts : List PortInfo)
    (deviceName : String) (devicePorts : List PortInfo)
    (pwLines : List String) : List Op :=
  (parsePwLinks pwLines).filterMap fun l =>
    if l.1 ∈ (outputPortsOf devicePorts).map (fun p => mkKey deviceName p.port)
        ∧ l ∉ linkDesiredKeys syncName syncPorts deviceName devicePorts
    then some (Op.disconnect l.1 l.2) else none

/-- Connect phase of link_item_to_sync_bucket (lines 892-909): for every
desired pair whose two keys are present in the live port lookup, attempt
the connect. -/
def linkConnectOps (syncName : String) (syncPorts : List PortInfo)
    (deviceName : String) (devicePorts : List PortInfo)
    (lookup : List String) : List Op :=
  (linkPairsFor syncPorts devicePorts).filterMap fun pr =>
    if mkKey deviceName pr.1.port ∈ lookup ∧ mkKey syncName pr.2.port ∈ lookup
    then some (Op.connect (mkKey deviceName pr.1.port) (mkKey syncName pr.2.port))
    else none

/-- Operations of one link_item_to_sync_bucket call (lines 816-909): the
whole disconnect phase, then the whole connect phase.  An empty sync
metadata list aborts with no operations (lines 835-838). -/
def linkItemOps (syncName : String) (syncPorts : List PortInfo)
    (deviceName : String) (devicePorts : List PortInfo)
    (lookup : List String) (pwLines : List String) : List Op :=
  if syncPorts = [] then []
  else linkDisconnectOps syncName syncPorts deviceName devicePorts pwLines
    ++ linkConnectOps syncName syncPorts deviceName devicePorts lookup

/-- remove_output_links_for_label (src/app.py lines 911-967): disconnect
every listed link from a sync monitor port to a playback port of the
removed device. -/
def removeOutputLinksForLabel (deviceName : String) (devicePorts : List PortInfo)
    (syncBuckets : List (String × List PortInfo)) (pwLines : List String) : List Op :=
  let pbs := playbackPortsOf devicePorts
  let mons := syncBuckets.flatMap fun b => (monitorPortsOf b.2).map fun p => (b.1, p.port)
  let toRemove := mons.flatMap fun m => pbs.map fun pb => (mkKey m.1 m.2, mkKey deviceName pb.port)
  (parsePwLinks pwLines).filterMap fun l =>
    if l ∈ toRemove then some (Op.disconnect l.1 l.2) else none

/-! ## Rule engine and stream routing (src/testapp.py) -/

/-- One auto-routing rule: app-name pattern and destination sink
(src/testapp.py lines 160-163, 474-484). -/
structure Rule where
  app_name : String
  sink : String
deriving DecidableEq

/-- One sink as parsed from pactl list short sinks
(src/testapp.py lines 354-364). -/
structure SinkInfo where
  index : String
  name : String
deriving DecidableEq

/-- One stream as parsed from pactl list sink-inputs
(src/testapp.py lines 366-385).  The sink field is the sink INDEX string
of the current destination.  The sink_name field models the optional
dictionary key of the same name: get_sink_inputs never sets it, so every
freshly fetched stream carries none; refresh_devices_and_sinks sets it
only on its own private list (line 553), which apply_routing_rules never
sees because it re-fetches the streams (line 488). -/
structure StreamInfo where
  index : String
  app_name : Option String
  media_name : Option String
  sink : Option String
  sink_name : Option String
deriving DecidableEq

/-- Loopback-stream heuristic of update_hidden_streams
(src/testapp.py lines 456-464): hide when the lowered media name contains
loopback or the lowered app name is pipewire or pulseaudio. -/
def streamIsLoopbackLike (s : StreamInfo) : Bool :=
  hasSubstring "loopback".data (asciiLower (s.media_name.getD "")).data
    || decide (asciiLower (s.app_name.getD "") = "pipewire")
    || decide (asciiLower (s.app_name.getD "") = "pulseaudio")

/-- Hidden-stream index set computed by update_hidden_streams
(src/testapp.py lines 456-472): heuristic matches plus the stream indices
tracked in the persisted loopbacks state. -/
def hiddenStreams (loopbackIdxs : List String) (streams : List StreamInfo) : List String :=
  (streams.filterMap fun s => if streamIsLoopbackLike s then some s.index else none)
    ++ loopbackIdxs

/-- Model of the sink_index_to_name dictionary lookup with default
Unknown (src/testapp.py lines 490, 499-500): a falsy (missing or empty)
index yields Unknown; the dictionary comprehension keeps the LAST sink
for a duplicated index, hence the reversed first-match search. -/
def sinkIndexToName (sinks : List SinkInfo) (idx : Option String) : String :=
  match idx with
  | none => "Unknown"
  | some i =>
    if i = "" then "Unknown"
    else
      match (sinks.reverse).find? (fun sk => sk.index == i) with
      | some sk => sk.name
      | none => "Unknown"

/-- The manual-override skip of apply_routing_rules
(src/testapp.py lines 496-498): skip when an override for the stream
index exists and equals the (optional) sink_name entry of the stream. -/
def overrideSatisfied (overrides : List (String × String)) (s : StreamInfo) : Bool :=
  match lookupStr s.index overrides with
  | some v => s.sink_name == some v
  | none => false

/-- The condition under which apply_routing_rules emits a move for a rule
and a stream (src/testapp.py lines 492-502): stream not hidden, override
not satisfied, app names equal case-insensitively, and the name of the
current sink differs from the destination of the rule. -/
def ruleFires (sinks : List SinkInfo) (overrides : List (String × String))
    (hidden : List String) (r : Rule) (s : StreamInfo) : Bool :=
  if s.index ∈ hidden then false
  else if overrideSatisfied overrides s then false
  else
    decide (asciiLower (s.app_name.getD "") = asciiLower r.app_name)
      && !(sinkIndexToName sinks s.sink == r.sink)

/-- The rule-major, stream-minor double loop of apply_routing_rules
(src/testapp.py lines 491-503): for each rule in list order and each
stream in snapshot order, emit one move when the rule fires. -/
def routeMoves (rules : List Rule) (sinks : List SinkInfo)
    (overrides : List (String × String)) (hidden : List String)
    (streams : List StreamInfo) : List Op :=
  rules.flatMap fun r =>
    streams.filterMap fun s =>
      if ruleFires sinks overrides hidden r s then some (Op.move s.index r.sink) else none

/-- apply_routing_rules (src/testapp.py lines 486-503): recompute the
hidden set from the freshly fetched streams, then run the double loop. -/
def applyRoutingRules (rules : List Rule) (sinks : List SinkInfo)
    (streams : List StreamInfo) (overrides : List (String × String))
    (loopbackIdxs : List String) : List Op :=
  routeMoves rules sinks overrides (hiddenStreams loopbackIdxs streams) streams

/-- Persisted router state of src/testapp.py: the rule list, the
manual-override map and the tracked loopback stream indices
(STATE_FILE content, lines 159-168). -/
structure RouterState where
  rules : List Rule
  manual_overrides : List (String × String)
  loopbacks : List String
deriving DecidableEq

/-- apply_routing_rules as a state transition: it emits moves and leaves
the whole persisted state, in particular manual_overrides, untouched
(src/testapp.py lines 486-503 write no state key). -/
def applyRoutingRulesStep (st : RouterState) (sinks : List SinkInfo)
    (streams : List StreamInfo) : List Op × RouterState :=
  (applyRoutingRules st.rules sinks streams st.manual_overrides st.loopbacks, st)

/-- Dictionary update with shadowing insert, modelling assignment to a
Python dict key. -/
def setOverride (ov : List (String × String)) (k v : String) : List (String × String) :=
  (k, v) :: ov.filter fun p => decide (p.1 ≠ k)

/-- move_sink_input (src/testapp.py lines 644-655), the drag-and-drop
path: emit the move and record a manual override pinned to the new
destination.  run_pactl returns a string (possibly empty) and never None
(lines 325-331), so the override is recorded unconditionally. -/
def moveSinkInput (st : RouterState) (idx sinkName : String) : List Op × RouterState :=
  ([Op.move idx sinkName],
   { st with manual_overrides := setOverride st.manual_overrides idx sinkName })

/-- The override pruning of refresh_devices_and_sinks
(src/testapp.py lines 554-558): keep exactly the overrides whose stream
index is among the freshly fetched stream indices. -/
def pruneOverrides (ov : List (String × String)) (streams : List StreamInfo) :
    List (String × String) :=
  ov.filter fun p => decide (p.1 ∈ streams.map StreamInfo.index)

/-- The forced-refresh sequence around the pruning
(src/testapp.py lines 536-561): prune the overrides against the fresh
stream snapshot, persist the state (save_state, line 559, unconditional,
modelled by the Boolean write flag), then apply the routing rules with
the pruned overrides. -/
def refreshStep (st : RouterState) (sinks : List SinkInfo) (streams : List StreamInfo) :
    RouterState × Bool × List Op :=
  let pruned := { st with manual_overrides := pruneOverrides st.manual_overrides streams }
  (pruned, true, applyRoutingRules pruned.rules sinks streams pruned.manual_overrides pruned.loopbacks)

/-! ## Persisted label locations (src/app.py) -/

/-- Dictionary assignment for the label-location map, modelling
main_window._label_locations[name] = bucket with a shadowing insert. -/
def setLoc (m : List (String × String)) (k v : String) : List (String × String) :=
  (k, v) :: m.filter fun p => decide (p.1 ≠ k)

/-- State of the label-location store together with the chronological
list of file writes performed by _save_label_locations; each write
records the serialized map content (serialization of identical maps is
identical, so content equality is map equality). -/
structure LabelState where
  locations : List (String × String)
  writes : List (List (String × String))
deriving DecidableEq

/-- _save_label_locations (src/app.py lines 590-595): unconditionally
dump the whole current map to the state file. -/
def saveLabelLocationsSt (st : LabelState) : LabelState :=
  { st with writes := st.writes ++ [st.locations] }

/-- The desired-state mutation of an accepted Bucket.dropEvent
(src/app.py lines 356-371): set the location of the dropped label to the
bucket name and save, with no comparison against the previous value. -/
def dropEventSet (st : LabelState) (name bucket : String) : LabelState :=
  saveLabelLocationsSt { st with locations := setLoc st.locations name bucket }

/-- The labels placed in the Outputs bucket by _refresh_pipewire
(src/app.py lines 709-738): exactly the known devices whose stored
location is Outputs (absent entries default to available). -/
def outputsOf (locs : List (String × String)) (labels : List (String × List PortInfo)) :
    List (String × List PortInfo) :=
  labels.filter fun lab => decide (lookupStr lab.1 locs = some "Outputs")

/-- Outcome of handing the state-file content to the json library, the
external parser: either a parsed mapping or an exception. -/
inductive ParseOutcome (α : Type) where
  | ok (v : α)
  | err (msg : String)
deriving DecidableEq

/-- _load_label_locations (src/app.py lines 597-604): a missing file or a
parse exception yields the empty map (with a logged warning); a parsed
mapping is returned as is.  The json library is external; a well-formed
prior save parses back to the saved mapping. -/
def loadLabelLocations (filePresent : Bool)
    (parsed : ParseOutcome (List (String × String))) : List (String × String) :=
  if filePresent then
    match parsed with
    | .ok m => m
    | .err _ => []
  else []

/-- load_state (src/testapp.py lines 624-631), identical structure for
the router state file. -/
def loadState (filePresent : Bool) (parsed : ParseOutcome RouterState) : RouterState :=
  if filePresent then
    match parsed with
    | .ok st => st
    | .err _ => ⟨[], [], []⟩
  else ⟨[], [], []⟩

/-- Content written by a save of the label locations, as seen by a later
load through the external json library: a successful parse of the dumped
mapping. -/
def savedLabelLocations (m : List (String × String)) :
    ParseOutcome (List (String × String)) := .ok m

/-! ## Reconciliation cycle and the external state it mutates -/

/-- External state a reconciliation cycle observes and mutates: the
active streams (with their current destinations) and the present link
pairs. -/
structure CycleState where
  streams : List StreamInfo
  links : List (String × String)
deriving DecidableEq

/-- Effect of a successful pactl move-sink-input on one stream record as
re-observed by the next get_sink_inputs: the stream with the given index
now reports the index of the named sink. -/
def moveUpd (sinks : List SinkInfo) (idx sinkName : String) (s : StreamInfo) : StreamInfo :=
  if s.index = idx then
    { s with sink := (sinks.find? fun sk => sk.name == sinkName).map SinkInfo.index }
  else s

/-- Effect of one operation on a stream record: only moves touch
streams. -/
def opStreamUpd (sinks : List SinkInfo) (op : Op) (s : StreamInfo) : StreamInfo :=
  match op with
  | .move idx sinkName => moveUpd sinks idx sinkName s
  | _ => s

/-- Effect of one successful operation on the external state. -/
def applyOp (sinks : List SinkInfo) (st : CycleState) : Op → CycleState
  | .connect src dst => { st with links := st.links ++ [(src, dst)] }
  | .disconnect src dst =>
      { st with links := st.links.filter fun l => decide (¬(l.1 = src ∧ l.2 = dst)) }
  | .move idx sinkName => { st with streams := st.streams.map (moveUpd sinks idx sinkName) }

/-- Apply a whole operation list in order. -/
def applyOps (sinks : List SinkInfo) (st : CycleState) (ops : List Op) : CycleState :=
  ops.foldl (applyOp sinks) st

/-- Static environment of one reconciliation cycle: the port metadata and
live-port lookup read by the relink pass, and the rules, sinks, overrides
and tracked loopbacks read by the routing pass.  None of these change
when no external-state change happens between runs. -/
structure CycleEnv where
  syncBuckets : List (String × List PortInfo)
  outputLabels : List (String × List PortInfo)
  lookup : List String
  rules : List Rule
  sinks : List SinkInfo
  overrides : List (String × String)
  loopbackIdxs : List String

/-- One reconciliation run over the current external state: the
relink_outputs_to_syncs pass (src/app.py lines 757-814) followed by
apply_routing_rules (src/testapp.py lines 486-503) on the fresh stream
snapshot. -/
def reconcile (env : CycleEnv) (st : CycleState) : List Op :=
  relinkOutputsToSyncs env.syncBuckets env.outputLabels env.lookup
    ++ applyRoutingRules env.rules env.sinks st.streams env.overrides env.loopbackIdxs

/-! ## Mutation executor (src/app.py lines 808-814, 884-888, 902-907, 963-967) -/

/-- Result of attempting one operation: the try/except around each
control-plane call records either success or a logged failure. -/
inductive OpResult where
  | applied (op : Op)
  | failed (op : Op)
deriving DecidableEq

/-- The operation an attempt was made for. -/
def OpResult.op : OpResult → Op
  | .applied o => o
  | .failed o => o

/-- The executor loop: every operation of the batch is attempted in
order; a failing call (oracle fails) is caught by its per-iteration
try/except and recorded, and the loop continues with the next
operation. -/
def runBatch (fails : Op → Bool) : List Op → List OpResult
  | [] => []
  | op :: rest => (if fails op then OpResult.failed op else OpResult.applied op) :: runBatch fails rest

/-! ## Helper lemmas -/

/-- Every operation of the relink pass for one bucket and label comes
from a desired suffix-matched pair. -/
lemma mem_relinkOpsFor {syncName deviceName : String} {syncPorts devicePorts : List PortInfo}
    {lookup : List String} {op : Op}
    (h : op ∈ relinkOpsFor syncName syncPorts deviceName devicePorts lookup) :
    ∃ mon pb, (mon, pb) ∈ relinkPairsFor syncPorts devicePorts ∧
      op = Op.connect (mkKey syncName mon.port) (mkKey deviceName pb.port) := by
  simp only [relinkOpsFor, List.mem_filterMap] at h
  obtain ⟨mp, hmp, heq⟩ := h
  split at heq
  · injection heq with h2
    exact ⟨mp.1, mp.2, by simpa using hmp, h2.symm⟩
  · cases heq

/-- Every operation of the connect phase of link_item_to_sync_bucket
comes from a desired suffix-matched pair. -/
lemma mem_linkConnectOps {syncName deviceName : String} {syncPorts devicePorts : List PortInfo}
    {lookup : List String} {op : Op}
    (h : op ∈ linkConnectOps syncName syncPorts deviceName devicePorts lookup) :
    ∃ outp pb, (outp, pb) ∈ linkPairsFor syncPorts devicePorts ∧
      op = Op.connect (mkKey deviceName outp.port) (mkKey syncName pb.port) := by
  simp only [linkConnectOps, List.mem_filterMap] at h
  obtain ⟨pr, hpr, heq⟩ := h
  split at heq
  · injection heq with h2
    exact ⟨pr.1, pr.2, by simpa using hpr, h2.symm⟩
  · cases heq

/-- Every operation of the disconnect phase is a disconnect. -/
lemma mem_linkDisconnectOps {syncName deviceName : String} {syncPorts devicePorts : List PortInfo}
    {pwLines : List String} {op : Op}
    (h : op ∈ linkDisconnectOps syncName syncPorts deviceName devicePorts pwLines) :
    ∃ a b, op = Op.disconnect a b := by
  simp only [linkDisconnectOps, List.mem_filterMap] at h
  obtain ⟨l, hl, heq⟩ := h
  split at heq
  · injection heq with h2
    exact ⟨l.1, l.2, h2.symm⟩
  · cases heq

/-- Membership in a desired pair list of the relink pass forces equal
channel suffixes. -/
lemma relinkPairsFor_suffix {syncPorts devicePorts : List PortInfo} {mon pb : PortInfo}
    (h : (mon, pb) ∈ relinkPairsFor syncPorts devicePorts) :
    channelSuffix mon.port = channelSuffix pb.port := by
  simp only [relinkPairsFor, List.mem_flatMap, List.mem_filterMap] at h
  obtain ⟨m, -, p, -, heq⟩ := h
  split at heq
  · simp only [Option.some.injEq, Prod.mk.injEq] at heq
    obtain ⟨h1, h2⟩ := heq
    subst h1; subst h2
    assumption
  · cases heq

/-- Membership in a desired pair list of link_item_to_sync_bucket forces
equal channel suffixes. -/
lemma linkPairsFor_suffix {syncPorts devicePorts : List PortInfo} {outp pb : PortInfo}
    (h : (outp, pb) ∈ linkPairsFor syncPorts devicePorts) :
    channelSuffix outp.port = channelSuffix pb.port := by
  simp only [linkPairsFor, List.mem_flatMap, List.mem_filterMap] at h
  obtain ⟨m, -, p, -, heq⟩ := h
  split at heq
  · simp only [Option.some.injEq, Prod.mk.injEq] at heq
    obtain ⟨h1, h2⟩ := heq
    subst h1; subst h2
    assumption
  · cases heq

/-! ## Claim theorems C1, C3, C9 -/

/-- Claim C1: every desired link the reconciler computes, in both the
relink_outputs_to_syncs pass (sync monitor ports to output-device
playback ports) and the link_item_to_sync_bucket pass (dropped-device
output ports to sync playback ports), pairs ports with equal channel
suffixes, and every connect operation either pass attempts arises from
such a pair; a connect is never attempted for ports with differing
suffixes. -/
theorem c1_desired_links_match_channel_suffix
    (syncName deviceName : String) (syncPorts devicePorts : List PortInfo)
    (lookup pwLines : List String) :
    (∀ mon pb, (mon, pb) ∈ relinkPairsFor syncPorts devicePorts →
      channelSuffix mon.port = channelSuffix pb.port)
    ∧ (∀ outp pb, (outp, pb) ∈ linkPairsFor syncPorts devicePorts →
      channelSuffix outp.port = channelSuffix pb.port)
    ∧ (∀ op ∈ relinkOpsFor syncName syncPorts deviceName devicePorts lookup,
      ∃ mon pb, (mon, pb) ∈ relinkPairsFor syncPorts devicePorts ∧
        channelSuffix mon.port = channelSuffix pb.port ∧
        op = Op.connect (mkKey syncName mon.port) (mkKey deviceName pb.port))
    ∧ (∀ op ∈ linkItemOps syncName syncPorts deviceName devicePorts lookup pwLines,
      op.isConnect = true →
      ∃ outp pb, (outp, pb) ∈ linkPairsFor syncPorts devicePorts ∧
        channelSuffix outp.port = channelSuffix pb.port ∧
        op = Op.connect (mkKey deviceName outp.port) (mkKey syncName pb.port)) := by
  refine ⟨fun mon pb h => relinkPairsFor_suffix h,
    fun outp pb h => linkPairsFor_suffix h, ?_, ?_⟩
  · intro op hop
    obtain ⟨mon, pb, hmem, heq⟩ := mem_relinkOpsFor hop
    exact ⟨mon, pb, hmem, relinkPairsFor_suffix hmem, heq⟩
  · intro op hop hconn
    rw [linkItemOps] at hop
    split at hop
    · cases hop
    · rcases List.mem_append.mp hop with hd | hc
      · obtain ⟨a, b, rfl⟩ := mem_linkDisconnectOps hd
        cases hconn
      · obtain ⟨outp, pb, hmem, heq⟩ := mem_linkConnectOps hc
        exact ⟨outp, pb, hmem, linkPairsFor_suffix hmem, heq⟩

/-- Claim C1 witness: the invariant applied to the concrete scenario of
spec section 8 (Game monitor_FL against Headset playback_FL). -/
theorem c1_witness :
    (⟨"1", "monitor_FL", "output"⟩, (⟨"2", "playback_FL", "input"⟩ : PortInfo))
        ∈ relinkPairsFor [⟨"1", "monitor_FL", "output"⟩] [⟨"2", "playback_FL", "input"⟩]
    ∧ channelSuffix "monitor_FL" = channelSuffix "playback_FL" :=
  ⟨by decide,
   (c1_desired_links_match_channel_suffix "Game" "Headset"
      [⟨"1", "monitor_FL", "output"⟩] [⟨"2", "playback_FL", "input"⟩] [] []).1
      ⟨"1", "monitor_FL", "output"⟩ ⟨"2", "playback_FL", "input"⟩ (by decide)⟩

/-- Claim C3: in the operation list of one link_item_to_sync_bucket pass
for a bucket, every disconnect is issued at an earlier position than
every connect. -/
theorem c3_disconnects_precede_connects
    (syncName deviceName : String) (syncPorts devicePorts : List PortInfo)
    (lookup pwLines : List String) (i j : Nat) (s d s2 d2 : String)
    (hi : (linkItemOps syncName syncPorts deviceName devicePorts lookup pwLines)[i]?
      = some (Op.disconnect s d))
    (hj : (linkItemOps syncName syncPorts deviceName devicePorts lookup pwLines)[j]?
      = some (Op.connect s2 d2)) :
    i < j := by
  by_cases hsp : syncPorts = []
  · rw [linkItemOps, if_pos hsp] at hi
    cases i <;> cases hi
  · rw [linkItemOps, if_neg hsp] at hi hj
    set D := linkDisconnectOps syncName syncPorts deviceName devicePorts pwLines with hD
    set C := linkConnectOps syncName syncPorts deviceName devicePorts lookup with hC
    have hiD : i < D.length := by
      by_contra hlt
      push_neg at hlt
      rw [List.getElem?_append_right hlt] at hi
      have hmem : Op.disconnect s d ∈ C := List.getElem?_mem hi
      obtain ⟨a, b, -, hab⟩ := mem_linkConnectOps hmem
      cases hab
    have hjD : D.length ≤ j := by
      by_contra hlt
      push_neg at hlt
      rw [List.getElem?_append_left hlt] at hj
      have hmem : Op.connect s2 d2 ∈ D := List.getElem?_mem hj
      obtain ⟨a, b, hab⟩ := mem_linkDisconnectOps hmem
      cases hab
    exact Nat.lt_of_lt_of_le hiD hjD

/-- Claim C3 witness: a concrete pass whose operation list holds a
disconnect at position zero and a connect at position one. -/
theorem c3_witness :
    (linkItemOps "Game" [⟨"10", "playback_FL", "input"⟩] "Dev" [⟨"20", "output_FL", "output"⟩]
        ["Dev:output_FL", "Game:playback_FL"]
        ["Dev:output_FL", "  |-> Other:playback_FL"])[0]?
      = some (Op.disconnect "Dev:output_FL" "Other:playback_FL")
    ∧ (0 : Nat) < 1 :=
  ⟨by decide,
   c3_disconnects_precede_connects "Game" "Dev" [⟨"10", "playback_FL", "input"⟩]
     [⟨"20", "output_FL", "output"⟩] ["Dev:output_FL", "Game:playback_FL"]
     ["Dev:output_FL", "  |-> Other:playback_FL"] 0 1
     "Dev:output_FL" "Other:playback_FL" "Dev:output_FL" "Game:playback_FL"
     (by decide) (by decide)⟩

/-- The executor attempts every operation of the batch in order,
whatever the failure oracle says. -/
lemma runBatch_map_op (fails : Op → Bool) : ∀ ops : List Op,
    (runBatch fails ops).map OpResult.op = ops
  | [] => rfl
  | op :: rest => by
    rw [runBatch]
    split <;> simp [OpResult.op, runBatch_map_op fails rest]

/-- Claim C9: during application of a batch of mutation operations, a
failing operation is recorded and every remaining operation is still
attempted, for the link_item_to_sync_bucket batch, the
relink_outputs_to_syncs batch and the remove_output_links_for_label
batch alike: whatever the set of failing operations, the attempted
sequence equals the whole emitted batch. -/
theorem c9_batch_continues_on_failure
    (fails : Op → Bool) (syncName deviceName : String)
    (syncPorts devicePorts : List PortInfo)
    (syncBuckets outputLabels : List (String × List PortInfo))
    (lookup pwLines : List String) :
    (runBatch fails (linkItemOps syncName syncPorts deviceName devicePorts lookup pwLines)).map
        OpResult.op
      = linkItemOps syncName syncPorts deviceName devicePorts lookup pwLines
    ∧ (runBatch fails (relinkOutputsToSyncs syncBuckets outputLabels lookup)).map OpResult.op
      = relinkOutputsToSyncs syncBuckets outputLabels lookup
    ∧ (runBatch fails (removeOutputLinksForLabel deviceName devicePorts syncBuckets pwLines)).map
        OpResult.op
      = removeOutputLinksForLabel deviceName devicePorts syncBuckets pwLines :=
  ⟨runBatch_map_op fails _, runBatch_map_op fails _, runBatch_map_op fails _⟩

/-! ## Claim theorems C5, C6, C8, C10 -/

/-- Claim C5: evaluation at the failing input.  Stream 7 of app Firefox
sits on sink index 3 whose name is Game, and the manual override for
index 7 targets Game, so the override target equals the actual current
destination; the claim requires the stream to be skipped, yet
apply_routing_rules emits a move, because its satisfied-override check
(src/testapp.py line 497) compares the override against the sink_name
dictionary key that get_sink_inputs never sets. -/
theorem c5_override_not_skipped_eval :
    sinkIndexToName [⟨"3", "Game"⟩] (some "3") = "Game"
    ∧ lookupStr "7" [("7", "Game")] = some "Game"
    ∧ applyRoutingRules [⟨"Firefox", "Aux"⟩] [⟨"3", "Game"⟩]
        [⟨"7", some "Firefox", none, some "3", none⟩] [("7", "Game")] []
      = [Op.move "7" "Aux"] := by decide

/-- Claim C6 counterexample: a rule-triggered move changes the route of
stream 7 (from the sink named Other to Aux), yet the manual-override map
after the pass still has no entry for index 7: apply_routing_rules calls
run_pactl directly (src/testapp.py line 502) and never records an
override. -/
theorem c6_counterexample :
    (applyRoutingRulesStep ⟨[⟨"Firefox", "Aux"⟩], [], []⟩ [⟨"3", "Other"⟩]
        [⟨"7", some "Firefox", none, some "3", none⟩]).1 = [Op.move "7" "Aux"]
    ∧ lookupStr "7" ((applyRoutingRulesStep ⟨[⟨"Firefox", "Aux"⟩], [], []⟩ [⟨"3", "Other"⟩]
        [⟨"7", some "Firefox", none, some "3", none⟩]).2.manual_overrides) = none := by
  decide

/-- Claim C6 amended: a rule-triggered move leaves the persisted state,
in particular the manual-override map, unchanged; only the user
drag-and-drop path move_sink_input pins the affected stream index to the
new destination. -/
theorem c6_amended_override_only_on_manual_move :
    (∀ (st : RouterState) (sinks : List SinkInfo) (streams : List StreamInfo),
      (applyRoutingRulesStep st sinks streams).2 = st)
    ∧ (∀ (st : RouterState) (idx sinkName : String),
      lookupStr idx (moveSinkInput st idx sinkName).2.manual_overrides = some sinkName) := by
  refine ⟨fun st sinks streams => rfl, fun st idx sinkName => ?_⟩
  simp [moveSinkInput, setOverride, lookupStr]

/-- Claim C8: loading the persisted store when the file is absent or its
content fails to parse returns the empty store (the load functions are
total, so no exception escapes); loading a well-formed prior save returns
the saved mapping.  This holds for the label-location store of
src/app.py and the router state store of src/testapp.py. -/
theorem c8_load_tolerates_missing_and_malformed :
    (∀ parsed, loadLabelLocations false parsed = [])
    ∧ (∀ e, loadLabelLocations true (.err e) = [])
    ∧ (∀ m, loadLabelLocations true (savedLabelLocations m) = m)
    ∧ (∀ parsed, loadState false parsed = ⟨[], [], []⟩)
    ∧ (∀ e, loadState true (.err e) = ⟨[], [], []⟩)
    ∧ (∀ st, loadState true (.ok st) = st) :=
  ⟨fun _ => rfl, fun _ => rfl, fun _ => rfl, fun _ => rfl, fun _ => rfl, fun _ => rfl⟩

/-- Claim C10: after the pruning step of a forced refresh every key of
the manual-override map is the index of a currently live stream, the
pruned state is persisted, and the routing rules are applied to the
pruned map. -/
theorem c10_overrides_pruned_to_live_streams
    (st : RouterState) (sinks : List SinkInfo) (streams : List StreamInfo) :
    (∀ k ∈ ((refreshStep st sinks streams).1.manual_overrides.map Prod.fst),
      k ∈ streams.map StreamInfo.index)
    ∧ (refreshStep st sinks streams).2.1 = true
    ∧ (refreshStep st sinks streams).2.2
      = applyRoutingRules st.rules sinks streams
          (pruneOverrides st.manual_overrides streams) st.loopbacks := by
  refine ⟨?_, rfl, rfl⟩
  intro k hk
  simp only [refreshStep, pruneOverrides, List.mem_map] at hk
  obtain ⟨p, hp, rfl⟩ := hk
  obtain ⟨a, ha, hidx⟩ := of_decide_eq_true (List.mem_filter.mp hp).2
  exact List.mem_map.mpr ⟨a, ha, hidx⟩

/-- Claim C10 witness: a stale override (index 9) is pruned while the
override of the live stream 7 survives and its key is a live index. -/
theorem c10_witness :
    "7" ∈ ((refreshStep ⟨[], [("7", "Aux"), ("9", "Game")], []⟩ []
        [⟨"7", some "Firefox", none, none, none⟩]).1.manual_overrides.map Prod.fst)
    ∧ "7" ∈ ([⟨"7", some "Firefox", none, none, none⟩] : List StreamInfo).map StreamInfo.index :=
  ⟨by decide,
   (c10_overrides_pruned_to_live_streams ⟨[], [("7", "Aux"), ("9", "Game")], []⟩ []
      [⟨"7", some "Firefox", none, none, none⟩]).1 "7" (by decide)⟩

/-! ## Claim C7: setting an entry to its current value -/

/-- Removing the entries of a different key does not change a lookup. -/
lemma lookupStr_filter_ne (m : List (String × String)) (k q : String) (h : q ≠ k) :
    lookupStr q (m.filter fun p => decide (p.1 ≠ k)) = lookupStr q m := by
  induction m with
  | nil => rfl
  | cons p ps ih =>
    by_cases hp : p.1 = k
    · have hcond : (decide (p.1 ≠ k)) = false := by simp [hp]
      rw [List.filter_cons, hcond]
      simp only [Bool.false_eq_true, if_false]
      rw [ih, lookupStr]
      have : ¬ p.1 = q := fun hq => h (hq ▸ hp ▸ rfl)
      simp [this]
    · have hcond : (decide (p.1 ≠ k)) = true := by simp [hp]
      rw [List.filter_cons, hcond]
      simp only [if_true]
      rw [lookupStr, lookupStr]
      split
      · rfl
      · exact ih

/-- Setting a key to the value it already holds preserves every lookup. -/
lemma lookupStr_setLoc_same (m : List (String × String)) (name bucket : String)
    (h : lookupStr name m = some bucket) :
    ∀ q, lookupStr q (setLoc m name bucket) = lookupStr q m := by
  intro q
  by_cases hq : name = q
  · subst hq
    rw [setLoc, lookupStr]
    simp [h]
  · rw [setLoc, lookupStr]
    have : ¬ (name, bucket).1 = q := fun hc => hq hc
    simp only [this, if_false]
    exact lookupStr_filter_ne m name q (fun hc => hq hc.symm)

/-- Claim C7 counterexample: after dropping label Dev into bucket Game,
dropping it into the same bucket again (a set to the value the entry
already holds) performs a second consecutive write of the persisted
store with identical content, contradicting the claim that no such
second write happens. -/
theorem c7_counterexample :
    (dropEventSet (dropEventSet ⟨[], []⟩ "Dev" "Game") "Dev" "Game").writes
      = [[("Dev", "Game")], [("Dev", "Game")]]
    ∧ (dropEventSet (dropEventSet ⟨[], []⟩ "Dev" "Game") "Dev" "Game").writes.length = 2 := by
  decide

/-- Claim C7 amended: setting a desired-state entry to the value it
already holds leaves the stored mapping observationally unchanged (every
lookup is preserved), hence the downstream relink operation list, which
reads the mapping only through the Outputs membership test, is unchanged
as well; the persisted file, however, is written again on every set,
including a set to the current value, with the serialized current map as
content. -/
theorem c7_amended_set_same_value (st : LabelState) (name bucket : String)
    (h : lookupStr name st.locations = some bucket) :
    (∀ q, lookupStr q (dropEventSet st name bucket).locations = lookupStr q st.locations)
    ∧ (∀ (syncBuckets labels : List (String × List PortInfo)) (lookup : List String),
      relinkOutputsToSyncs syncBuckets
          (outputsOf (dropEventSet st name bucket).locations labels) lookup
        = relinkOutputsToSyncs syncBuckets (outputsOf st.locations labels) lookup)
    ∧ (dropEventSet st name bucket).writes
      = st.writes ++ [(dropEventSet st name bucket).locations] := by
  have hpres : ∀ q, lookupStr q (dropEventSet st name bucket).locations
      = lookupStr q st.locations := by
    intro q
    show lookupStr q (setLoc st.locations name bucket) = lookupStr q st.locations
    exact lookupStr_setLoc_same st.locations name bucket h q
  refine ⟨hpres, ?_, rfl⟩
  intro syncBuckets labels lookup
  have : outputsOf (dropEventSet st name bucket).locations labels
      = outputsOf st.locations labels := by
    unfold outputsOf
    apply List.filter_congr
    intro lab _
    rw [hpres lab.1]
  rw [this]

/-- Claim C7 witness: the amended statement applied to a store that
already maps Dev to Game. -/
theorem c7_witness :
    lookupStr "Dev" (dropEventSet ⟨[("Dev", "Game")], []⟩ "Dev" "Game").locations
      = lookupStr "Dev" (([("Dev", "Game")] : List (String × String))) :=
  (c7_amended_set_same_value ⟨[("Dev", "Game")], []⟩ "Dev" "Game" (by decide)).1 "Dev"

/-! ## Claim C4: per-stream move characterization -/

/-- True on moves that target the given stream index. -/
def opTargets (idx : String) : Op → Bool
  | .move i _ => decide (i = idx)
  | _ => false

/-- Filtering distributes over flatMap. -/
lemma filter_flatMap {α β : Type} (l : List α) (f : α → List β) (p : β → Bool) :
    (l.flatMap f).filter p = l.flatMap fun a => (f a).filter p := by
  induction l with
  | nil => rfl
  | cons a as ih => simp [List.flatMap_cons, List.filter_append, ih]

/-- A firing rule matches the app name of the stream. -/
lemma ruleFires_elim {sinks : List SinkInfo} {ov : List (String × String)}
    {hidden : List String} {r : Rule} {s : StreamInfo}
    (h : ruleFires sinks ov hidden r s = true) :
    s.index ∉ hidden ∧ overrideSatisfied ov s = false
    ∧ asciiLower (s.app_name.getD "") = asciiLower r.app_name
    ∧ sinkIndexToName sinks s.sink ≠ r.sink := by
  rw [ruleFires] at h
  split at h
  · cases h
  · split at h
    · cases h
    · next h1 h2 =>
      rw [Bool.and_eq_true] at h
      refine ⟨h1, ?_, of_decide_eq_true h.1, ?_⟩
      · rwa [Bool.not_eq_true] at h2
      · have := h.2
        rw [Bool.not_eq_true'] at this
        exact ne_of_beq_false this

/-- A rule whose destination equals the current sink name of the stream
does not fire. -/
lemma ruleFires_eq_false_of_sink {sinks : List SinkInfo} {ov : List (String × String)}
    {hidden : List String} {r : Rule} {s : StreamInfo}
    (h : sinkIndexToName sinks s.sink = r.sink) :
    ruleFires sinks ov hidden r s = false := by
  rw [ruleFires]
  split
  · rfl
  · split
    · rfl
    · simp [h]

/-- No move of the double loop over streams with a different index
survives the target filter. -/
lemma filter_targets_emit_nil (sinks : List SinkInfo) (ov : List (String × String))
    (hidden : List String) (r : Rule) (idx : String) (ts : List StreamInfo)
    (h : ∀ u ∈ ts, u.index ≠ idx) :
    ((ts.filterMap fun t =>
        if ruleFires sinks ov hidden r t then some (Op.move t.index r.sink) else none).filter
      (opTargets idx)) = [] := by
  induction ts with
  | nil => rfl
  | cons t ts ih =>
    rw [List.filterMap_cons]
    have hne := h t (List.mem_cons_self t ts)
    by_cases hf : ruleFires sinks ov hidden r t = true
    · simp only [hf, if_true]
      rw [List.filter_cons]
      have : opTargets idx (Op.move t.index r.sink) = false := by
        simp [opTargets, hne]
      simp only [this, Bool.false_eq_true, if_false]
      exact ih fun u hu => h u (List.mem_cons_of_mem t hu)
    · simp only [Bool.not_eq_true] at hf
      simp only [hf, Bool.false_eq_true, if_false]
      exact ih fun u hu => h u (List.mem_cons_of_mem t hu)

/-- For a stream with a unique index in the snapshot, one rule iteration
of the double loop contributes exactly one targeted move when the rule
fires and none otherwise. -/
lemma filter_targets_emit_single (sinks : List SinkInfo) (ov : List (String × String))
    (hidden : List String) (r : Rule) (s : StreamInfo) :
    ∀ streams : List StreamInfo, s ∈ streams → (streams.map StreamInfo.index).Nodup →
    ((streams.filterMap fun t =>
        if ruleFires sinks ov hidden r t then some (Op.move t.index r.sink) else none).filter
      (opTargets s.index))
      = if ruleFires sinks ov hidden r s then [Op.move s.index r.sink] else [] := by
  intro streams
  induction streams with
  | nil => intro hs; cases hs
  | cons t ts ih =>
    intro hs hnd
    rw [List.map_cons, List.nodup_cons] at hnd
    rcases List.mem_cons.mp hs with rfl | hmem
    · have hts : ∀ u ∈ ts, u.index ≠ s.index := by
        intro u hu hEq
        exact hnd.1 (hEq ▸ List.mem_map_of_mem StreamInfo.index hu)
      rw [List.filterMap_cons]
      by_cases hf : ruleFires sinks ov hidden r s = true
      · simp only [hf, if_true]
        rw [List.filter_cons]
        have : opTargets s.index (Op.move s.index r.sink) = true := by simp [opTargets]
        simp only [this, if_true]
        rw [filter_targets_emit_nil sinks ov hidden r s.index ts hts]
      · simp only [Bool.not_eq_true] at hf
        simp only [hf, Bool.false_eq_true, if_false]
        exact filter_targets_emit_nil sinks ov hidden r s.index ts hts
    · have htne : t.index ≠ s.index := by
        intro hEq
        exact hnd.1 (hEq ▸ List.mem_map_of_mem StreamInfo.index hmem)
      rw [List.filterMap_cons]
      by_cases hf : ruleFires sinks ov hidden r t = true
      · simp only [hf, if_true]
        rw [List.filter_cons]
        have : opTargets s.index (Op.move t.index r.sink) = false := by
          simp [opTargets, htne]
        simp only [this, Bool.false_eq_true, if_false]
        exact ih hmem hnd.2
      · simp only [Bool.not_eq_true] at hf
        simp only [hf, Bool.false_eq_true, if_false]
        exact ih hmem hnd.2

/-- The moves apply_routing_rules emits for one stream are exactly one
move per firing rule, in rule-list order. -/
lemma applyRoutingRules_filter_targets (rules : List Rule) (sinks : List SinkInfo)
    (streams : List StreamInfo) (ov : List (String × String)) (lb : List String)
    (s : StreamInfo) (hs : s ∈ streams) (hnd : (streams.map StreamInfo.index).Nodup) :
    (applyRoutingRules rules sinks streams ov lb).filter (opTargets s.index)
      = (rules.filter fun r => ruleFires sinks ov (hiddenStreams lb streams) r s).map
          fun r => Op.move s.index r.sink := by
  unfold applyRoutingRules routeMoves
  rw [filter_flatMap]
  induction rules with
  | nil => rfl
  | cons r rs ih =>
    rw [List.flatMap_cons, List.filter_cons]
    rw [filter_targets_emit_single sinks ov (hiddenStreams lb streams) r s streams hs hnd]
    by_cases hf : ruleFires sinks ov (hiddenStreams lb streams) r s = true
    · simp only [hf, if_true, List.map_cons]
      rw [ih]
      rfl
    · simp only [Bool.not_eq_true] at hf
      simp only [hf, Bool.false_eq_true, if_false]
      rw [ih]
      rfl

/-- Claim C4 counterexample: stream 7 of app Firefox sits on the sink
named Other; the rule list holds two rules for Firefox, first to Aux and
then to Game.  The claim says only the destination of the first matching
rule is applied, but apply_routing_rules emits a move for each matching
rule (it iterates the rules over the unchanged snapshot), and applying
the emitted operations leaves the stream on sink index 9, the sink named
Game of the SECOND rule. -/
theorem c4_counterexample :
    applyRoutingRules [⟨"Firefox", "Aux"⟩, ⟨"Firefox", "Game"⟩]
        [⟨"3", "Other"⟩, ⟨"9", "Game"⟩, ⟨"5", "Aux"⟩]
        [⟨"7", some "Firefox", none, some "3", none⟩] [] []
      = [Op.move "7" "Aux", Op.move "7" "Game"]
    ∧ (applyOps [⟨"3", "Other"⟩, ⟨"9", "Game"⟩, ⟨"5", "Aux"⟩]
        ⟨[⟨"7", some "Firefox", none, some "3", none⟩], []⟩
        (applyRoutingRules [⟨"Firefox", "Aux"⟩, ⟨"Firefox", "Game"⟩]
          [⟨"3", "Other"⟩, ⟨"9", "Game"⟩, ⟨"5", "Aux"⟩]
          [⟨"7", some "Firefox", none, some "3", none⟩] [] [])).streams
      = [⟨"7", some "Firefox", none, some "9", none⟩] := by decide

/-- Claim C4 amended: rule application scans the rule list in order and,
for every stream with a unique index that is not hidden and has no
satisfied override, emits one move per rule whose app-name pattern
case-insensitively equals the app name of the stream AND whose
destination differs from the snapshot-time sink name of the stream, in
rule-list order; hence when no rule matches, no move is emitted for the
stream, and when two rules match, both destinations are applied (the
stream ends at the destination of the last matching differing rule), not
only the first. -/
theorem c4_amended_moves_per_matching_rule (rules : List Rule) (sinks : List SinkInfo)
    (streams : List StreamInfo) (ov : List (String × String)) (lb : List String)
    (s : StreamInfo) (hs : s ∈ streams) (hnd : (streams.map StreamInfo.index).Nodup) :
    ((applyRoutingRules rules sinks streams ov lb).filter (opTargets s.index)
      = (rules.filter fun r => ruleFires sinks ov (hiddenStreams lb streams) r s).map
          fun r => Op.move s.index r.sink)
    ∧ ((∀ r ∈ rules, asciiLower (s.app_name.getD "") ≠ asciiLower r.app_name) →
      (applyRoutingRules rules sinks streams ov lb).filter (opTargets s.index) = []) := by
  refine ⟨applyRoutingRules_filter_targets rules sinks streams ov lb s hs hnd, ?_⟩
  intro hnone
  rw [applyRoutingRules_filter_targets rules sinks streams ov lb s hs hnd]
  have : (rules.filter fun r => ruleFires sinks ov (hiddenStreams lb streams) r s) = [] := by
    rw [List.filter_eq_nil_iff]
    intro r hr hf
    exact hnone r hr (ruleFires_elim hf).2.2.1
  rw [this, List.map_nil]

/-- Claim C4 witness: the amended characterization applied to the
two-matching-rule scenario of the counterexample. -/
theorem c4_witness :
    (applyRoutingRules [⟨"Firefox", "Aux"⟩, ⟨"Firefox", "Game"⟩] [⟨"3", "Other"⟩]
        [⟨"7", some "Firefox", none, some "3", none⟩] [] []).filter (opTargets "7")
      = (([⟨"Firefox", "Aux"⟩, ⟨"Firefox", "Game"⟩] : List Rule).filter fun r =>
          ruleFires [⟨"3", "Other"⟩] [] (hiddenStreams [] [⟨"7", some "Firefox", none, some "3", none⟩])
            r ⟨"7", some "Firefox", none, some "3", none⟩).map
          fun r => Op.move "7" r.sink :=
  (c4_amended_moves_per_matching_rule [⟨"Firefox", "Aux"⟩, ⟨"Firefox", "Game"⟩] [⟨"3", "Other"⟩]
    [⟨"7", some "Firefox", none, some "3", none⟩] [] []
    ⟨"7", some "Firefox", none, some "3", none⟩ (by decide) (by decide)).1

/-! ## Claim C2: running the cycle twice -/

/-- The streams component of one applied operation. -/
lemma applyOp_streams (sinks : List SinkInfo) (st : CycleState) (op : Op) :
    (applyOp sinks st op).streams = st.streams.map (opStreamUpd sinks op) := by
  cases op with
  | connect a b =>
    show st.streams = List.map (fun s => s) st.streams
    rw [List.map_id']
  | disconnect a b =>
    show st.streams = List.map (fun s => s) st.streams
    rw [List.map_id']
  | move i k => rfl

/-- The streams component after a whole operation list: every stream is
rewritten by the fold of the per-operation update. -/
lemma applyOps_streams (sinks : List SinkInfo) (ops : List Op) : ∀ st : CycleState,
    (applyOps sinks st ops).streams
      = st.streams.map fun s => ops.foldl (fun x op => opStreamUpd sinks op x) s := by
  induction ops with
  | nil => intro st; simp [applyOps]
  | cons op ops ih =>
    intro st
    show (applyOps sinks (applyOp sinks st op) ops).streams = _
    rw [ih (applyOp sinks st op), applyOp_streams, List.map_map]
    rfl

/-- One operation update changes at most the sink field of a stream. -/
lemma opStreamUpd_fields (sinks : List SinkInfo) (op : Op) (s : StreamInfo) :
    (opStreamUpd sinks op s).index = s.index
    ∧ (opStreamUpd sinks op s).app_name = s.app_name
    ∧ (opStreamUpd sinks op s).media_name = s.media_name
    ∧ (opStreamUpd sinks op s).sink_name = s.sink_name := by
  cases op with
  | connect a b => exact ⟨rfl, rfl, rfl, rfl⟩
  | disconnect a b => exact ⟨rfl, rfl, rfl, rfl⟩
  | move i k =>
    simp only [opStreamUpd, moveUpd]
    split <;> exact ⟨rfl, rfl, rfl, rfl⟩

/-- The fold of operation updates changes at most the sink field. -/
lemma foldlUpd_fields (sinks : List SinkInfo) (ops : List Op) : ∀ s : StreamInfo,
    (ops.foldl (fun x op => opStreamUpd sinks op x) s).index = s.index
    ∧ (ops.foldl (fun x op => opStreamUpd sinks op x) s).app_name = s.app_name
    ∧ (ops.foldl (fun x op => opStreamUpd sinks op x) s).media_name = s.media_name
    ∧ (ops.foldl (fun x op => opStreamUpd sinks op x) s).sink_name = s.sink_name := by
  induction ops with
  | nil => intro s; exact ⟨rfl, rfl, rfl, rfl⟩
  | cons op ops ih =>
    intro s
    rw [List.foldl_cons]
    obtain ⟨i1, a1, m1, n1⟩ := opStreamUpd_fields sinks op s
    obtain ⟨i2, a2, m2, n2⟩ := ih (opStreamUpd sinks op s)
    exact ⟨i2.trans i1, a2.trans a1, m2.trans m1, n2.trans n1⟩

/-- An operation that does not target the index of the stream leaves the
stream unchanged. -/
lemma opStreamUpd_of_not_target (sinks : List SinkInfo) (op : Op) (s : StreamInfo)
    (h : opTargets s.index op = false) : opStreamUpd sinks op s = s := by
  cases op with
  | connect a b => rfl
  | disconnect a b => rfl
  | move i k =>
    have hne : ¬ i = s.index := by
      intro hc
      rw [opTargets, hc] at h
      simp at h
    have hne2 : ¬ s.index = i := fun hc => hne hc.symm
    show moveUpd sinks i k s = s
    rw [moveUpd, if_neg hne2]

/-- The fold of operation updates only depends on the operations that
target the index of the stream. -/
lemma foldlUpd_filter (sinks : List SinkInfo) (ops : List Op) : ∀ s : StreamInfo,
    ops.foldl (fun x op => opStreamUpd sinks op x) s
      = (ops.filter (opTargets s.index)).foldl (fun x op => opStreamUpd sinks op x) s := by
  induction ops with
  | nil => intro s; rfl
  | cons op ops ih =>
    intro s
    rw [List.foldl_cons, List.filter_cons]
    by_cases ht : opTargets s.index op = true
    · simp only [ht, if_true, List.foldl_cons]
      have hidx : (opStreamUpd sinks op s).index = s.index := (opStreamUpd_fields sinks op s).1
      rw [ih (opStreamUpd sinks op s), hidx]
    · rw [Bool.not_eq_true] at ht
      rw [opStreamUpd_of_not_target sinks op s ht]
      simp only [ht, Bool.false_eq_true, if_false]
      exact ih s

/-- Every operation of the relink pass is a connect. -/
lemma relink_all_connect {syncBuckets outputLabels : List (String × List PortInfo)}
    {lookup : List String} {op : Op}
    (h : op ∈ relinkOutputsToSyncs syncBuckets outputLabels lookup) :
    ∃ a b, op = Op.connect a b := by
  simp only [relinkOutputsToSyncs, List.mem_flatMap] at h
  obtain ⟨b, -, hin⟩ := h
  split at hin
  · cases hin
  · rw [List.mem_flatMap] at hin
    obtain ⟨lab, -, hop⟩ := hin
    obtain ⟨mon, pb, -, heq⟩ := mem_relinkOpsFor hop
    exact ⟨_, _, heq⟩

/-- A fold of connect operations leaves every stream unchanged. -/
lemma foldlUpd_of_connects (sinks : List SinkInfo) (ops : List Op)
    (h : ∀ op ∈ ops, ∃ a b, op = Op.connect a b) (s : StreamInfo) :
    ops.foldl (fun x op => opStreamUpd sinks op x) s = s := by
  induction ops with
  | nil => rfl
  | cons op ops ih =>
    obtain ⟨a, b, rfl⟩ := h op (List.mem_cons_self op ops)
    rw [List.foldl_cons]
    exact ih fun o ho => h o (List.mem_cons_of_mem _ ho)

/-- Over a list whose mapped keys are distinct, a filter whose witnesses
all carry one key keeps nothing or exactly one element. -/
lemma filter_single_or_nil {α β : Type} (l : List α) (p : α → Bool) (f : α → β)
    (hdist : (l.map f).Nodup)
    (hcompat : ∀ a ∈ l, ∀ b ∈ l, p a = true → p b = true → f a = f b) :
    l.filter p = [] ∨ ∃ r, l.filter p = [r] ∧ p r = true ∧ r ∈ l := by
  induction l with
  | nil => left; rfl
  | cons x xs ih =>
    rw [List.map_cons, List.nodup_cons] at hdist
    by_cases hx : p x = true
    · right
      refine ⟨x, ?_, hx, List.mem_cons_self x xs⟩
      rw [List.filter_cons]
      simp only [hx, if_true]
      have hnil : xs.filter p = [] := by
        rw [List.filter_eq_nil_iff]
        intro y hy hpy
        apply hdist.1
        have hfy : f y = f x :=
          hcompat y (List.mem_cons_of_mem x hy) x (List.mem_cons_self x xs) hpy hx
        exact hfy ▸ List.mem_map_of_mem f hy
      rw [hnil]
    · rw [Bool.not_eq_true] at hx
      rw [List.filter_cons]
      simp only [hx, Bool.false_eq_true, if_false]
      have hcompat2 : ∀ a ∈ xs, ∀ b ∈ xs, p a = true → p b = true → f a = f b :=
        fun a ha b hb hpa hpb =>
          hcompat a (List.mem_cons_of_mem x ha) b (List.mem_cons_of_mem x hb) hpa hpb
      rcases ih hdist.2 hcompat2 with h | ⟨r, h1, h2, h3⟩
      · left; exact h
      · right; exact ⟨r, h1, h2, List.mem_cons_of_mem x h3⟩

/-- After a successful move to an existing sink name, the reported sink
index maps back to that name (the sink indices are distinct and non
empty). -/
lemma sinkIndexToName_find (sinks : List SinkInfo) (name : String)
    (hex : ∃ sk ∈ sinks, sk.name = name)
    (hnd : (sinks.map SinkInfo.index).Nodup)
    (hne : ∀ sk ∈ sinks, sk.index ≠ "") :
    sinkIndexToName sinks ((sinks.find? fun sk => sk.name == name).map SinkInfo.index)
      = name := by
  obtain ⟨sk₀, hsk₀, hname₀⟩ := hex
  obtain ⟨sk₁, hf⟩ : ∃ sk₁, sinks.find? (fun sk => sk.name == name) = some sk₁ := by
    cases hf : sinks.find? (fun sk => sk.name == name) with
    | some sk₁ => exact ⟨sk₁, rfl⟩
    | none =>
      exfalso
      have := List.find?_eq_none.mp hf sk₀ hsk₀
      simp [hname₀] at this
  have hmem₁ : sk₁ ∈ sinks := List.mem_of_find?_eq_some hf
  have hname₁ : sk₁.name = name := by
    have := List.find?_some hf
    exact eq_of_beq this
  obtain ⟨sk₂, hf2⟩ : ∃ sk₂,
      (sinks.reverse).find? (fun sk => sk.index == sk₁.index) = some sk₂ := by
    cases hf2 : (sinks.reverse).find? (fun sk => sk.index == sk₁.index) with
    | some sk₂ => exact ⟨sk₂, rfl⟩
    | none =>
      exfalso
      have := List.find?_eq_none.mp hf2 sk₁ (List.mem_reverse.mpr hmem₁)
      simp at this
  have hmem₂ : sk₂ ∈ sinks := List.mem_reverse.mp (List.mem_of_find?_eq_some hf2)
  have hidx₂ : sk₂.index = sk₁.index := by
    have hb := List.find?_some hf2
    simpa using hb
  have heq : sk₂ = sk₁ := List.inj_on_of_nodup_map hnd hmem₂ hmem₁ hidx₂
  rw [hf]
  show (if sk₁.index = "" then "Unknown"
    else match List.find? (fun sk => sk.index == sk₁.index) sinks.reverse with
      | some sk => sk.name
      | none => "Unknown") = name
  rw [if_neg (hne sk₁ hmem₁), hf2]
  show sk₂.name = name
  rw [heq, hname₁]

/-- The hidden-stream set only looks at the index, app name and media
name of each stream, so it is unchanged by a map that preserves them. -/
lemma hiddenStreams_map_inv (lb : List String) (streams : List StreamInfo)
    (g : StreamInfo → StreamInfo)
    (hg : ∀ s ∈ streams, (g s).index = s.index ∧ (g s).app_name = s.app_name
      ∧ (g s).media_name = s.media_name) :
    hiddenStreams lb (streams.map g) = hiddenStreams lb streams := by
  unfold hiddenStreams
  congr 1
  rw [List.filterMap_map]
  apply List.filterMap_congr
  intro s hsmem
  obtain ⟨h1, h2, h3⟩ := hg s hsmem
  show (if streamIsLoopbackLike (g s) then some (g s).index else none)
    = (if streamIsLoopbackLike s then some s.index else none)
  have : streamIsLoopbackLike (g s) = streamIsLoopbackLike s := by
    unfold streamIsLoopbackLike
    rw [h2, h3]
  rw [this, h1]

/-- The override-satisfied test only looks at the index and sink_name
fields. -/
lemma overrideSatisfied_congr (ov : List (String × String)) {s s' : StreamInfo}
    (h1 : s'.index = s.index) (h2 : s'.sink_name = s.sink_name) :
    overrideSatisfied ov s' = overrideSatisfied ov s := by
  unfold overrideSatisfied
  rw [h1, h2]

/-- Core of the second-run analysis: after applying the operations of one
reconciliation run, no rule fires on any stream, provided the rule app
names are pairwise distinct case-insensitively, the stream indices are
distinct, and every rule destination names an existing sink with a non
empty, unique index. -/
lemma secondRunFiresFalse (env : CycleEnv) (st : CycleState)
    (hr : (env.rules.map fun r => asciiLower r.app_name).Nodup)
    (hidx : (st.streams.map StreamInfo.index).Nodup)
    (hsink : ∀ r ∈ env.rules, ∃ sk ∈ env.sinks, sk.name = r.sink)
    (hsknd : (env.sinks.map SinkInfo.index).Nodup)
    (hskne : ∀ sk ∈ env.sinks, sk.index ≠ "")
    (r : Rule) (hrm : r ∈ env.rules) (s : StreamInfo) (hs : s ∈ st.streams) :
    ruleFires env.sinks env.overrides (hiddenStreams env.loopbackIdxs st.streams) r
      ((reconcile env st).foldl (fun x op => opStreamUpd env.sinks op x) s) = false := by
  have hufields := foldlUpd_fields env.sinks (reconcile env st) s
  obtain ⟨hui, hua, hum, hun⟩ := hufields
  set us := (reconcile env st).foldl (fun x op => opStreamUpd env.sinks op x) s with husdef
  by_cases hmem : us.index ∈ hiddenStreams env.loopbackIdxs st.streams
  · rw [ruleFires, if_pos hmem]
  · rw [ruleFires, if_neg hmem]
    by_cases hsat : overrideSatisfied env.overrides us = true
    · rw [if_pos hsat]
    · rw [if_neg hsat]
      by_cases hmatchu : asciiLower (us.app_name.getD "") = asciiLower r.app_name
      · suffices hsn : sinkIndexToName env.sinks us.sink = r.sink by
          simp [hsn]
        have hmem' : s.index ∉ hiddenStreams env.loopbackIdxs st.streams := by
          rw [← hui]; exact hmem
        have hsat' : overrideSatisfied env.overrides s = false := by
          rw [Bool.not_eq_true] at hsat
          have hcg := overrideSatisfied_congr env.overrides hui hun
          rw [← hcg]; exact hsat
        have hmatch : asciiLower (s.app_name.getD "") = asciiLower r.app_name := by
          rw [hua] at hmatchu; exact hmatchu
        have hchar : us = (((applyRoutingRules env.rules env.sinks st.streams env.overrides
            env.loopbackIdxs).filter (opTargets s.index)).foldl
              (fun x op => opStreamUpd env.sinks op x) s) := by
          rw [husdef]
          show (relinkOutputsToSyncs env.syncBuckets env.outputLabels env.lookup
            ++ applyRoutingRules env.rules env.sinks st.streams env.overrides
                env.loopbackIdxs).foldl (fun x op => opStreamUpd env.sinks op x) s = _
          rw [List.foldl_append,
            foldlUpd_of_connects env.sinks _ (fun op hop => relink_all_connect hop) s]
          exact foldlUpd_filter env.sinks _ s
        have hMfilter := applyRoutingRules_filter_targets env.rules env.sinks st.streams
          env.overrides env.loopbackIdxs s hs hidx
        have hcompat : ∀ a ∈ env.rules, ∀ b ∈ env.rules,
            ruleFires env.sinks env.overrides (hiddenStreams env.loopbackIdxs st.streams) a s
              = true →
            ruleFires env.sinks env.overrides (hiddenStreams env.loopbackIdxs st.streams) b s
              = true →
            asciiLower a.app_name = asciiLower b.app_name := by
          intro a _ b _ hpa hpb
          exact ((ruleFires_elim hpa).2.2.1).symm.trans (ruleFires_elim hpb).2.2.1
        rcases filter_single_or_nil env.rules
            (fun r' => ruleFires env.sinks env.overrides
              (hiddenStreams env.loopbackIdxs st.streams) r' s)
            (fun r' => asciiLower r'.app_name) hr hcompat with hnil | ⟨r₀, hone, hp₀, hr₀⟩
        · have husk : us = s := by
            rw [hchar, hMfilter, hnil]
            rfl
          have hrf : ruleFires env.sinks env.overrides
              (hiddenStreams env.loopbackIdxs st.streams) r s = false := by
            have := List.filter_eq_nil_iff.mp hnil r hrm
            rwa [Bool.not_eq_true] at this
          rw [ruleFires, if_neg hmem'] at hrf
          rw [if_neg (by simp [hsat'])] at hrf
          rw [decide_eq_true hmatch, Bool.true_and] at hrf
          have hsinkeq : sinkIndexToName env.sinks s.sink = r.sink := by
            by_contra hne2
            have hbf : (sinkIndexToName env.sinks s.sink == r.sink) = false := by
              simp [hne2]
            rw [hbf] at hrf
            simp at hrf
          rw [husk]
          exact hsinkeq
        · have hr₀r : r₀ = r := by
            have h1 := (ruleFires_elim hp₀).2.2.1
            exact List.inj_on_of_nodup_map hr hr₀ hrm (h1.symm.trans hmatch)
          subst hr₀r
          have husk : us.sink
              = (env.sinks.find? fun sk => sk.name == r₀.sink).map SinkInfo.index := by
            rw [hchar, hMfilter, hone]
            show (moveUpd env.sinks s.index r₀.sink s).sink = _
            rw [moveUpd, if_pos rfl]
          rw [husk]
          exact sinkIndexToName_find env.sinks r₀.sink (hsink r₀ hrm) hsknd hskne
      · have hd : decide (asciiLower (us.app_name.getD "") = asciiLower r.app_name) = false :=
          decide_eq_false hmatchu
        simp [hd]

/-- Demonstration environment shared by the C2 counterexample and
witness: one sync bucket, one output device with a matched channel
suffix, both live ports present, one rule and one matching stream. -/
def c2DemoEnv : CycleEnv :=
  ⟨[("Game", [⟨"1", "monitor_FL", "output"⟩])],
   [("Headset", [⟨"2", "playback_FL", "input"⟩])],
   ["Game:monitor_FL", "Headset:playback_FL"],
   [⟨"Firefox", "Aux"⟩], [⟨"5", "Aux"⟩], [], []⟩

/-- Demonstration external state for C2: one Firefox stream with an
unknown destination and no present links. -/
def c2DemoState : CycleState := ⟨[⟨"7", some "Firefox", none, none, none⟩], []⟩

/-- Claim C2 counterexample: running reconciliation a second time after
applying the operations of the first run, with no external change in
between, re-emits the connect operation of the relink pass, so the
second operation list is not empty as the claim requires. -/
theorem c2_counterexample :
    reconcile c2DemoEnv (applyOps c2DemoEnv.sinks c2DemoState (reconcile c2DemoEnv c2DemoState))
      = [Op.connect "Game:monitor_FL" "Headset:playback_FL"]
    ∧ reconcile c2DemoEnv (applyOps c2DemoEnv.sinks c2DemoState (reconcile c2DemoEnv c2DemoState))
      ≠ ([] : List Op) := by decide

/-- Claim C2 amended: with no external-state change between the runs,
and provided the rule app-name patterns are pairwise distinct
case-insensitively, the stream indices are distinct and every rule
destination names an existing sink with a non-empty unique index, the
second reconciliation run emits no move operation: its operation list is
exactly the connect operations of the relink pass, which are re-emitted
unconditionally on every run (each is a protocol-level no-op on an
already-connected pair), and which are the only operations either run
emits besides moves. -/
theorem c2_amended_second_run (env : CycleEnv) (st : CycleState)
    (hr : (env.rules.map fun r => asciiLower r.app_name).Nodup)
    (hidx : (st.streams.map StreamInfo.index).Nodup)
    (hsink : ∀ r ∈ env.rules, ∃ sk ∈ env.sinks, sk.name = r.sink)
    (hsknd : (env.sinks.map SinkInfo.index).Nodup)
    (hskne : ∀ sk ∈ env.sinks, sk.index ≠ "") :
    (reconcile env (applyOps env.sinks st (reconcile env st))
      = relinkOutputsToSyncs env.syncBuckets env.outputLabels env.lookup)
    ∧ (∀ op ∈ relinkOutputsToSyncs env.syncBuckets env.outputLabels env.lookup,
        op.isConnect = true) := by
  refine ⟨?_, fun op hop => ?_⟩
  · have hstreams : (applyOps env.sinks st (reconcile env st)).streams
        = st.streams.map fun s =>
            (reconcile env st).foldl (fun x op => opStreamUpd env.sinks op x) s :=
      applyOps_streams env.sinks (reconcile env st) st
    show relinkOutputsToSyncs env.syncBuckets env.outputLabels env.lookup
        ++ applyRoutingRules env.rules env.sinks
            (applyOps env.sinks st (reconcile env st)).streams env.overrides env.loopbackIdxs
      = relinkOutputsToSyncs env.syncBuckets env.outputLabels env.lookup
    rw [hstreams]
    suffices happ : applyRoutingRules env.rules env.sinks
        (st.streams.map fun s =>
          (reconcile env st).foldl (fun x op => opStreamUpd env.sinks op x) s)
        env.overrides env.loopbackIdxs = [] by
      rw [happ, List.append_nil]
    have hhid : hiddenStreams env.loopbackIdxs
        (st.streams.map fun s =>
          (reconcile env st).foldl (fun x op => opStreamUpd env.sinks op x) s)
        = hiddenStreams env.loopbackIdxs st.streams := by
      apply hiddenStreams_map_inv
      intro s _
      have h := foldlUpd_fields env.sinks (reconcile env st) s
      exact ⟨h.1, h.2.1, h.2.2.1⟩
    unfold applyRoutingRules
    rw [hhid]
    unfold routeMoves
    refine List.flatMap_eq_nil_iff.mpr ?_
    intro r hrm
    refine List.filterMap_eq_nil_iff.mpr ?_
    intro s₂ hs₂
    obtain ⟨s, hs, rfl⟩ := List.mem_map.mp hs₂
    have hff := secondRunFiresFalse env st hr hidx hsink hsknd hskne r hrm s hs
    simp [hff]
  · obtain ⟨a, b, rfl⟩ := relink_all_connect hop
    rfl

/-- Claim C2 witness: the amended statement at the demonstration
environment; the second run is exactly the relink connect list. -/
theorem c2_witness :
    reconcile c2DemoEnv (applyOps c2DemoEnv.sinks c2DemoState (reconcile c2DemoEnv c2DemoState))
      = relinkOutputsToSyncs c2DemoEnv.syncBuckets c2DemoEnv.outputLabels c2DemoEnv.lookup :=
  (c2_amended_second_run c2DemoEnv c2DemoState (by decide) (by decide) (by decide)
    (by decide) (by decide)).1
